import Mathlib

/-!
Verification of the Rewind dual-state checkpoint engine.

Shallow embedding of the core of the repository:
 * `src/rewind/src/core/transcript_manager.py` (cursor computation, boundary
   search by user prompts, fork creation),
 * `src/rewind/src/core/checkpoint_store.py` (create / restore / list /
   delete / prune),
 * `src/rewind/src/core/controller.py` (restore orchestration,
   checkpoint-for-boundary selection, undo),
 * `src/rewind/src/config/types.py` (the ignore matcher).

Files are modelled as lists of bytes (`List Nat`, newline = 10, carriage
return = 13).  Python strings that the code orders or splits are modelled as
`List Char`.  External facilities that the code merely calls — `json.loads`
together with the user-message check and prompt extraction, SHA-256 hashing,
path normalisation (`Path(...).expanduser()`), and the filesystem side of
sub-operations that a claim treats as opaque — are abstracted as function
parameters; everything else is translated statement by statement from the
Python source.

The Python code reads files in bounded chunks (128 KiB backwards scans,
1 MiB copies).  Chunked reading is an I/O detail: the backward boundary scan
only ever splits the buffer at a newline it has actually read, so the
sequence of complete lines it processes is identical to processing the fully
read file; the models therefore operate on the whole byte list.
-/

namespace Rewind

/-- Bytes of a file, each entry a byte value. -/
abbrev Bytes := List Nat

/-- Index of the last newline (byte 10) in a buffer, if any.  Models
`buf.rfind(b"\n")` from `transcript_manager.py` (returning `none` for the
Python result `-1`). -/
def rfindNL : Bytes → Option Nat
  | [] => none
  | b :: rest =>
    match rfindNL rest with
    | some i => some (i + 1)
    | none => if b = 10 then some 0 else none

/-- Strip trailing carriage returns; models `line_bytes.rstrip(b"\r")`. -/
def rstripCR (l : Bytes) : Bytes :=
  ((l.reverse).dropWhile (fun b => b = 13)).reverse

/-- ASCII whitespace bytes, the characters stripped by Python
`bytes.strip()`. -/
def isWSByte (b : Nat) : Bool :=
  b = 9 || b = 10 || b = 11 || b = 12 || b = 13 || b = 32

/-- Result type of `TranscriptManager.find_boundary_by_user_prompts`
(`BoundaryResult` in `transcript_manager.py`).  Prompt texts are kept
abstract in the type `α`. -/
structure BoundaryResult (α : Type) where
  boundary_offset : Nat
  prompts : List α
deriving DecidableEq

/-- The distinct failure sites of `find_boundary_by_user_prompts`:
the `n <= 0` guard, the empty-transcript guard, and the final
"Not enough user prompts (requested .., found ..)" error. -/
inductive BoundaryError where
  | invalidN : BoundaryError
  | emptyTranscript : BoundaryError
  | notEnough (requested found : Nat) : BoundaryError
deriving DecidableEq

/-- Embedding of the body of `process_line` inside
`find_boundary_by_user_prompts` (transcript_manager.py lines 234-254).
The composite `json.loads` + `isinstance(obj, dict)` +
`_is_user_message` + `_extract_prompt_text` pipeline is abstracted as
`parse : Bytes → Option α` (`none` models every skipped case: malformed
JSON, non-object, non-user role).  Returns the updated newest-first prompt
accumulator and the boundary offset when the count reaches `n`. -/
def processLine {α : Type} (parse : Bytes → Option α) (n : Nat)
    (line : Bytes) (lineStart : Nat) (acc : List α) : List α × Option Nat :=
  if line = [] then (acc, none)
  else
    let stripped := rstripCR line
    if stripped.all isWSByte then (acc, none)
    else
      match parse stripped with
      | none => (acc, none)
      | some p =>
        let acc1 := acc ++ [p]
        (acc1, if acc1.length = n then some lineStart else none)

/-- The backward scanning loop of `find_boundary_by_user_prompts`
(transcript_manager.py lines 256-279): repeatedly split the trailing line
off at the last newline, process it, and finally process the residual
buffer (which then starts at offset 0) as the first line of the file.
Because the loop only splits at newlines present in the buffer, the
chunked reading of the Python code is equivalent to scanning the fully
read file, which is what this function does. -/
def findBoundaryLoop {α : Type} (parse : Bytes → Option α) (n : Nat) :
    Bytes → List α → Option Nat × List α
  | buf, acc =>
    match h : rfindNL buf with
    | some idx =>
      let line := buf.drop (idx + 1)
      let r := processLine parse n line (idx + 1) acc
      match r.2 with
      | some off => (some off, r.1)
      | none => findBoundaryLoop parse n (buf.take idx) r.1
    | none =>
      let r := processLine parse n buf 0 acc
      (r.2, r.1)
termination_by buf => buf.length
decreasing_by
  have hlt : idx < buf.length := by
    clear r line
    induction buf generalizing idx with
    | nil => simp [rfindNL] at h
    | cons b rest ih =>
      simp only [rfindNL] at h
      cases hr : rfindNL rest with
      | some i =>
        rw [hr] at h
        cases h
        exact Nat.succ_lt_succ (ih i hr)
      | none =>
        rw [hr] at h
        by_cases hb : b = 10
        · simp only [hb, if_true] at h
          cases h
          simp
        · simp [hb] at h
  simp only [List.length_take]
  omega

/-- Embedding of `TranscriptManager.find_boundary_by_user_prompts`
(transcript_manager.py lines 209-287). -/
def find_boundary_by_user_prompts {α : Type} (parse : Bytes → Option α)
    (file : Bytes) (n : Nat) : Except BoundaryError (BoundaryResult α) :=
  if n = 0 then .error .invalidN
  else if file.length = 0 then .error .emptyTranscript
  else
    match findBoundaryLoop parse n file [] with
    | (none, acc) => .error (.notEnough n acc.length)
    | (some off, acc) => .ok ⟨off, acc.reverse⟩

/-- Embedding of `TranscriptManager._find_last_complete_line_end`
(transcript_manager.py lines 431-456): offset just after the last complete
line; the whole file when it ends in a newline or contains none. -/
def find_last_complete_line_end (file : Bytes) : Nat :=
  if file.length = 0 then 0
  else if file.getLastD 0 = 10 then file.length
  else
    match rfindNL file with
    | some idx => idx + 1
    | none => file.length

/-- The cursor record of `transcript_manager.py` (`TranscriptCursor`), with
the hash digests and the last-event id kept abstract in `H` and `E`. -/
structure TranscriptCursor (H E : Type) where
  byte_offset_end : Nat
  last_event_id : Option E
  prefix_sha256 : H
  tail_sha256 : H
deriving DecidableEq

/-- Embedding of `TranscriptManager.compute_cursor` (transcript_manager.py
lines 127-164).  `hashP` and `hashT` abstract `_hash_prefix` and
`_hash_tail` (SHA-256 over the first / last 64 KiB); `readId` abstracts
`_read_last_event_id` applied to the file and the computed offset. -/
def compute_cursor {H E : Type} (hashP hashT : Bytes → H)
    (readId : Bytes → Nat → Option E) (file : Bytes) : TranscriptCursor H E :=
  if file.length = 0 then
    ⟨0, none, hashP file, hashT file⟩
  else
    let boe := find_last_complete_line_end file
    ⟨boe, readId file boe, hashP file, hashT file⟩

/-- Embedding of `TranscriptManager._copy_prefix` (transcript_manager.py
lines 494-506): copy the first `byte_count` bytes of the source (reading
stops early at end of file). -/
def copy_prefix_bytes (src : Bytes) (byte_count : Nat) : Bytes :=
  src.take byte_count

/-- Embedding of `TranscriptManager._ensure_trailing_newline`
(transcript_manager.py lines 520-534). -/
def ensure_trailing_newline (f : Bytes) : Bytes :=
  if f.length = 0 then f
  else if f.getLastD 0 = 10 then f
  else f ++ [10]

/-- Embedding of `TranscriptManager._title_prefix_enabled`
(transcript_manager.py lines 73-87): always false without an agent;
otherwise determined by the agent profile, abstracted as
`profileEnables`. -/
def title_prefix_enabled (profileEnables : String → Bool) :
    Option String → Bool
  | none => false
  | some a => profileEnables a

/-- Content of the file produced by `TranscriptManager.create_fork_at_offset`
(transcript_manager.py lines 289-311): the first `boundary_offset` bytes of
the transcript, a guaranteed trailing newline, and — only when a rewrite
title is supplied and the agent profile enables title prefixing — the
best-effort first-title rewrite, abstracted as `rewriteTitle`. -/
def create_fork_at_offset (profileEnables : String → Bool)
    (rewriteTitle : Bytes → Bytes) (agent : Option String) (rtp : Option String)
    (transcript : Bytes) (boundary_offset : Nat) : Bytes :=
  let c := ensure_trailing_newline ( copy_prefix_bytes transcript boundary_offset)
  if (match rtp with | none => false | some s => !(s = "")) &&
      title_prefix_enabled profileEnables agent then
    rewriteTitle c
  else c

/-- Concatenation of newline-terminated lines: the byte content of a JSONL
file whose every line ends with a newline. -/
def joinNL (ls : List Bytes) : Bytes :=
  (ls.map (fun l => l ++ [10])).flatten

/-- Each line paired with the byte offset of its first byte, starting at
`off`. -/
def withStarts : List Bytes → Nat → List (Bytes × Nat)
  | [], _ => []
  | l :: ls, off => (l, off) :: withStarts ls (off + (l.length + 1))

/-- Reference form of the boundary scan: structural recursion over the
lines (paired with their start offsets) in reverse file order.  The
equivalence with `findBoundaryLoop` is proved below. -/
def scanRev {α : Type} (parse : Bytes → Option α) (n : Nat) :
    List (Bytes × Nat) → List α → Option Nat × List α
  | [], acc => (none, acc)
  | e :: rest, acc =>
    let r := processLine parse n e.1 e.2 acc
    match r.2 with
    | some off => (some off, r.1)
    | none => scanRev parse n rest r.1

/-- The classification `process_line` applies to a single raw line:
`none` when the line is skipped (empty, whitespace-only after stripping
trailing carriage returns, or rejected by the JSON-decode / object /
role-check pipeline abstracted as `parse`), and `some p` with the
extracted prompt when the line counts as a user message. -/
def lineUserPrompt {α : Type} (parse : Bytes → Option α) (l : Bytes) :
    Option α :=
  if l = [] then none
  else
    let stripped := rstripCR l
    if stripped.all isWSByte then none
    else parse stripped

/-- Paths and checkpoint names: Python strings modelled as their character
sequences. -/
abbrev PathStr := List Char

/-- A star consumes any (possibly empty) chunk of the name: try the rest
of the pattern against every suffix. -/
def matchStar (f : List Char → Bool) : List Char → Bool
  | [] => f []
  | c :: cs => f (c :: cs) || matchStar f cs

/-- Shell-style glob matching of a name against a pattern, the semantics of
`fnmatch.fnmatch` restricted to `*`, `?` and literal characters (character
classes `[...]` appear nowhere in the repository's patterns and are treated
as literals). -/
def globMatch : List Char → List Char → Bool
  | [], s => decide (s = [])
  | p :: ps, s =>
    if p = '*' then matchStar (globMatch ps) s
    else
      match s with
      | [] => false
      | c :: cs => (if p = '?' then true else decide (p = c)) && globMatch ps cs

/-- Model of `fnmatch.fnmatch(name, pat)`. -/
def fnmatch (name pat : List Char) : Bool :=
  globMatch pat name

/-- Model of Python `path.split("/")` (keeps empty parts). -/
def splitOnSlash : List Char → List (List Char)
  | [] => [[]]
  | c :: cs =>
    if c = '/' then [] :: splitOnSlash cs
    else
      match splitOnSlash cs with
      | [] => [[c]]
      | part :: rest => (c :: part) :: rest

/-- Embedding of `IgnoreConfig` (config/types.py): the three pattern
lists. -/
structure IgnoreConfig where
  patterns : List (List Char)
  additional_ignores : List (List Char)
  force_include : List (List Char)

/-- Embedding of `IgnoreConfig.should_ignore` (config/types.py lines
122-149): force-include patterns win, then a path is ignored when any
pattern matches the full path, the path under a `*/` or `/*` scope, or any
single path component. -/
def should_ignore (cfg : IgnoreConfig) (path : List Char) : Bool :=
  if cfg.force_include.any (fun pat => fnmatch path pat) then false
  else
    (cfg.patterns ++ cfg.additional_ignores).any (fun pat =>
      fnmatch path pat ||
      fnmatch path ('*' :: '/' :: pat) ||
      fnmatch path (pat ++ ['/', '*']) ||
      (splitOnSlash path).any (fun part => fnmatch part pat))

/-- Result record of checkpoint-store operations (`CheckpointResult` in
checkpoint_store.py). -/
structure CheckpointResult where
  success : Bool
  name : PathStr := []
  file_count : Nat := 0
  error : Option String := none
deriving DecidableEq

/-- Adds a directory if absent; models `Path.mkdir(parents=True,
exist_ok=True)` on the set of existing checkpoint directories. -/
def insertDir (dirs : List PathStr) (d : PathStr) : List PathStr :=
  if d ∈ dirs then dirs else dirs ++ [d]

/-- Embedding of `CheckpointStore.create` (checkpoint_store.py lines
100-164) at the granularity claim C3 needs: the state is the set of
checkpoint directories on disk, `name` is the timestamp-derived directory
name and `files_to_archive` the outcome of `_collect_files()`.  The
checkpoint directory is created first; when zero files were collected the
function returns the failure result directly — the `shutil.rmtree` rollback
sits only in the `except` handler, which a plain early return does not
reach.  (Archive and metadata writes raise no exception in this pure
model, so the `except` rollback path is not represented.) -/
def store_create (dirs : List PathStr) (name : PathStr)
    (files_to_archive : List (PathStr × Bytes)) :
    CheckpointResult × List PathStr :=
  let dirs1 := insertDir dirs name
  if files_to_archive = [] then
    ({ success := false, error := some "No files to checkpoint" }, dirs1)
  else
    ({ success := true, name := name, file_count := files_to_archive.length },
      dirs1)

/-- A workspace: relative file paths with their byte contents. -/
abbrev FileSys := List (PathStr × Bytes)

/-- Content of a workspace file, if present. -/
def fsGet (ws : FileSys) (p : PathStr) : Option Bytes :=
  (ws.find? (fun e => e.1 == p)).map (fun e => e.2)

/-- Write a file, overwriting an existing entry; models
`shutil.copy2(src, dst)` onto `project_root/<relpath>`. -/
def fsSet (ws : FileSys) (p : PathStr) (c : Bytes) : FileSys :=
  if ws.any (fun e => e.1 == p) then
    ws.map (fun e => if e.1 == p then (p, c) else e)
  else ws ++ [(p, c)]

/-- Embedding of the copy loop of `CheckpointStore.restore`
(checkpoint_store.py lines 204-214): every file extracted from the archive
is copied over the workspace; nothing else is touched and nothing is
deleted. -/
def store_restore_copy (ws : FileSys) (entries : List (PathStr × Bytes)) :
    FileSys :=
  entries.foldl (fun acc e => fsSet acc e.1 e.2) ws

/-- Embedding of `CheckpointStore.list` (checkpoint_store.py lines 221-254)
on the names of the checkpoints present: sort by name descending
(`checkpoints.sort(key=lambda x: x.name, reverse=True)`). -/
def store_list (names : List PathStr) : List PathStr :=
  List.insertionSort (fun a b => a ≥ b) names

/-- Embedding of `CheckpointStore.delete` (checkpoint_store.py lines
275-292): remove the directory, reporting whether it existed. -/
def store_delete (names : List PathStr) (name : PathStr) :
    Bool × List PathStr :=
  if name ∈ names then (true, names.erase name) else (false, names)

/-- Embedding of `CheckpointStore.prune` (checkpoint_store.py lines
294-313): list, keep the first `keep` newest, delete the rest, counting
successful deletions. -/
def store_prune (names : List PathStr) (keep : Nat) : Nat × List PathStr :=
  let checkpoints := store_list names
  if checkpoints.length ≤ keep then (0, names)
  else
    (checkpoints.drop keep).foldl
      (fun acc nm =>
        let r := store_delete acc.2 nm
        (if r.1 then acc.1 + 1 else acc.1, r.2))
      (0, names)

/-- Cursor sub-object of checkpoint metadata as read by the controller;
`byte_offset_end` models `int(cursor.get("byte_offset_end", 0))` (the
missing-key default and the always-succeeding `int()` coercion are
folded into the field). -/
structure SelCursor where
  byte_offset_end : Int
deriving DecidableEq

/-- Transcript sub-object of checkpoint metadata as read by
`_select_checkpoint_for_boundary`: `none` fields model missing keys. -/
structure SelTranscriptMeta where
  original_path : Option PathStr
  path : Option PathStr
  cursor : Option SelCursor
deriving DecidableEq

/-- A checkpoint as seen by the selection: its name and optional
transcript metadata. -/
structure SelCheckpoint where
  name : PathStr
  transcript : Option SelTranscriptMeta
deriving DecidableEq

/-- Python `a or b` on optional strings: `b` when `a` is `None` or
empty. -/
def pyOr (a b : Option PathStr) : Option PathStr :=
  match a with
  | some s => if s = [] then b else some s
  | none => b

/-- The per-checkpoint test of `_select_checkpoint_for_boundary`
(controller.py lines 399-421): transcript metadata present, a non-empty
`original_path` (falling back to `path`) whose normalisation
(`str(Path(..).expanduser())`, abstracted as `norm`) equals the normalised
current transcript path `tp`, a cursor object present, and its
`byte_offset_end` at or before the boundary. -/
def cpMatches (norm : PathStr → PathStr) (tp : PathStr)
    (boundary_offset : Int) (cp : SelCheckpoint) : Bool :=
  match cp.transcript with
  | none => false
  | some meta =>
    match pyOr meta.original_path meta.path with
    | none => false
    | some op =>
      if op = [] then false
      else
        match meta.cursor with
        | none => false
        | some cur =>
          (norm op == tp) && decide (cur.byte_offset_end ≤ boundary_offset)

/-- Embedding of `RewindController._select_checkpoint_for_boundary`
(controller.py lines 389-423): scan the given checkpoint list in order
(the caller passes it newest-name first) and return the first match. -/
def select_checkpoint_for_boundary (norm : PathStr → PathStr)
    (checkpoints : List SelCheckpoint) (transcript_path : PathStr)
    (boundary_offset : Int) : Option SelCheckpoint :=
  let tp := norm transcript_path
  checkpoints.find? (cpMatches norm tp boundary_offset)

/-- The cursor offset a checkpoint carries (0 when absent); convenience
for stating the selection claims. -/
def cursorEnd (cp : SelCheckpoint) : Int :=
  match cp.transcript with
  | some meta =>
    match meta.cursor with
    | some cur => cur.byte_offset_end
    | none => 0
  | none => 0

/-- The `mode` argument of `RewindController.restore`. -/
inductive RestoreMode where
  | all : RestoreMode
  | code : RestoreMode
  | context : RestoreMode
deriving DecidableEq

/-- The dictionary `_restore_transcript` returns, merged into the restore
result: `contextRestored` is always present, the other keys only
sometimes (`none` models an absent key). -/
structure ContextResult where
  contextRestored : Bool
  contextError : Option String := none
  forkCreated : Option Bool := none
  forkPath : Option PathStr := none
deriving DecidableEq

/-- Transcript sub-object of checkpoint metadata as read by
`_restore_transcript`; fields that feed only the abstracted
`create_fork_session` call (snapshot name, agent) are folded into the
`forkResult` parameter below. -/
structure RestoreTranscriptMeta where
  cursor : Option SelCursor
  original_path : Option PathStr
  path : Option PathStr
deriving DecidableEq

/-- Embedding of `RewindController._restore_transcript` (controller.py
lines 425-508) in the default `fork` style.  `storeGet` models
`self.store.get(name)` (outer `none`: no metadata; inner `none`: metadata
without a `transcript` object); `session_transcript_path` the
`transcript_path` from session info; `forkResult` the outcome of the
`create_fork_session` call (`Except.error` models a raised
`TranscriptManagerError`).  The cursor decode `try` block and the
best-effort history append cannot fail in this pure model. -/
def restore_transcript (storeGet : Option (Option RestoreTranscriptMeta))
    (session_transcript_path : Option PathStr)
    (forkResult : Except String PathStr) : ContextResult :=
  match storeGet with
  | none => { contextRestored := false }
  | some none => { contextRestored := false }
  | some (some tmeta) =>
    match tmeta.cursor with
    | none => { contextRestored := false }
    | some _ =>
      match pyOr session_transcript_path
          (pyOr tmeta.original_path tmeta.path) with
      | none => { contextRestored := false }
      | some currentPath =>
        if currentPath = [] then { contextRestored := false }
        else
          match forkResult with
          | .error e => { contextRestored := false, contextError := some e }
          | .ok fp =>
            { contextRestored := true, forkCreated := some true,
              forkPath := some fp }

/-- The result dictionary of `RewindController.restore`; `none` models an
absent key. -/
structure RestoreOutcome where
  success : Bool
  error : Option String := none
  name : Option PathStr := none
  codeRestored : Option Bool := none
  fileCount : Option Nat := none
  contextRequested : Option Bool := none
  contextRestored : Option Bool := none
  contextError : Option String := none
  forkCreated : Option Bool := none
  forkPath : Option PathStr := none
deriving DecidableEq

/-- Merging `results.update(ctx-dict)` followed by the
`contextRestored`-default line of `restore` (controller.py lines 279-281):
keys present in the context dictionary overwrite the result. -/
def mergeContext (r : RestoreOutcome) (ctx : ContextResult) : RestoreOutcome :=
  { r with
    contextRestored := some ctx.contextRestored
    contextError :=
      match ctx.contextError with
      | some e => some e
      | none => r.contextError
    forkCreated :=
      match ctx.forkCreated with
      | some b => some b
      | none => r.forkCreated
    forkPath :=
      match ctx.forkPath with
      | some p => some p
      | none => r.forkPath }

/-- Embedding of `RewindController.restore` (controller.py lines 245-283).
The workspace type `WS` is abstract; `codeApply` captures whatever
`store.restore` does to the working tree when invoked, and `code_result`
its returned `CheckpointResult`.  `ctx` is the dictionary
`_restore_transcript` returns (see `restore_transcript`); the context
phase touches no workspace file. -/
def controller_restore {WS : Type} (checkpoint_exists : Bool)
    (name : PathStr) (code_result : CheckpointResult) (codeApply : WS → WS)
    (ctx : ContextResult) (mode : RestoreMode) (ws : WS) :
    RestoreOutcome × WS :=
  if checkpoint_exists = false then
    ({ success := false, error := some "Checkpoint not found" }, ws)
  else
    let base : RestoreOutcome := { success := true, name := some name }
    let afterCode : Option (RestoreOutcome × WS) :=
      if mode = RestoreMode.all ∨ mode = RestoreMode.code then
        let ws1 := codeApply ws
        if code_result.success = false then none
        else
          some ({ base with
                    codeRestored := some true
                    fileCount := some code_result.file_count }, ws1)
      else some (base, ws)
    match afterCode with
    | none =>
      ({ success := false, error := code_result.error }, codeApply ws)
    | some (r1, ws1) =>
      let requested := mode = RestoreMode.all ∨ mode = RestoreMode.context
      let r2 := { r1 with contextRequested := some (decide requested) }
      if requested then (mergeContext r2 ctx, ws1) else (r2, ws1)

/-- The result dictionary of `RewindController.undo`. -/
structure UndoResult where
  success : Bool
  error : Option String := none
  deletedCheckpoint : Option PathStr := none
deriving DecidableEq

/-- Embedding of `RewindController.undo` (controller.py lines 553-572) on
the set of checkpoint names: list newest-first, fail below two
checkpoints, restore to the second-newest (outcome abstracted as
`restoreResult`, giving the `success` flag and `error` field of the
restore dictionary), and only on success delete the newest. -/
def controller_undo (names : List PathStr)
    (restoreResult : PathStr → Bool × Option String) :
    UndoResult × List PathStr :=
  let checkpoints := store_list names
  if checkpoints.length < 2 then
    ({ success := false, error := some "Not enough checkpoints to undo" },
      names)
  else
    let previous := checkpoints.getD 1 []
    let r := restoreResult previous
    if r.1 then
      let newest := checkpoints.getD 0 []
      let d := store_delete names newest
      ({ success := true, error := r.2, deletedCheckpoint := some newest },
        d.2)
    else ({ success := false, error := r.2 }, names)

/-! Helper lemmas about the backward newline search. -/

theorem rfindNL_lt {buf : Bytes} {idx : Nat} (h : rfindNL buf = some idx) :
    idx < buf.length := by
  induction buf generalizing idx with
  | nil => simp [rfindNL] at h
  | cons b rest ih =>
    simp only [rfindNL] at h
    cases hr : rfindNL rest with
    | some i =>
      rw [hr] at h
      cases h
      exact Nat.succ_lt_succ (ih hr)
    | none =>
      rw [hr] at h
      by_cases hb : b = 10
      · simp only [hb, if_true] at h
        cases h
        simp
      · simp [hb] at h

theorem rfindNL_of_not_mem {t : Bytes} (h : 10 ∉ t) : rfindNL t = none := by
  induction t with
  | nil => rfl
  | cons b rest ih =>
    have hb : b ≠ 10 := by
      intro hb
      exact h (by simp [hb])
    have hr : 10 ∉ rest := fun hm => h (List.mem_cons_of_mem _ hm)
    simp only [rfindNL, ih hr]
    simp [hb]

theorem rfindNL_append_not_mem (s : Bytes) {t : Bytes} (h : 10 ∉ t) :
    rfindNL (s ++ t) = rfindNL s := by
  induction s with
  | nil => simp [rfindNL_of_not_mem h, rfindNL]
  | cons b rest ih =>
    simp only [List.cons_append, rfindNL, List.append_eq, ih]

theorem rfindNL_append_newline (s : Bytes) : rfindNL (s ++ [10]) = some s.length := by
  induction s with
  | nil => rfl
  | cons b rest ih =>
    simp only [List.cons_append, rfindNL, List.append_eq, ih, List.length_cons]

theorem rfindNL_concat_line {s t : Bytes} (ht : 10 ∉ t) :
    rfindNL (s ++ 10 :: t) = some s.length := by
  have hsh : s ++ 10 :: t = (s ++ [10]) ++ t := by simp
  rw [hsh, rfindNL_append_not_mem _ ht, rfindNL_append_newline]

/-! Helper lemmas about line processing. -/

theorem processLine_nil {α : Type} (parse : Bytes → Option α) (n off : Nat)
    (acc : List α) : processLine parse n [] off acc = (acc, none) := by
  simp [processLine]

/-- A line is either skipped (classification `none`) or counted with its
prompt appended — `process_line` in terms of the classification. -/
theorem processLine_eq {α : Type} (parse : Bytes → Option α) (n : Nat)
    (line : Bytes) (lineStart : Nat) (acc : List α) :
    processLine parse n line lineStart acc =
      match lineUserPrompt parse line with
      | none => (acc, none)
      | some p =>
        (acc ++ [p], if acc.length + 1 = n then some lineStart else none) := by
  unfold processLine lineUserPrompt
  by_cases h1 : line = []
  · simp [h1]
  · by_cases h2 : (rstripCR line).all isWSByte
    · simp [h1, h2]
    · cases hp : parse (rstripCR line) with
      | none => simp [h1, h2, hp]
      | some p => simp [h1, h2, hp, List.length_append]

/-! Helper lemmas about line/offset bookkeeping. -/

theorem joinNL_cons (l : Bytes) (ls : List Bytes) :
    joinNL (l :: ls) = (l ++ [10]) ++ joinNL ls := by
  simp [joinNL]

theorem joinNL_append (a b : List Bytes) :
    joinNL (a ++ b) = joinNL a ++ joinNL b := by
  simp [joinNL]

theorem joinNL_single (l : Bytes) : joinNL [l] = l ++ [10] := by
  simp [joinNL]

theorem withStarts_append (ls : List Bytes) (l : Bytes) (off : Nat) :
    withStarts (ls ++ [l]) off =
      withStarts ls off ++ [(l, off + (joinNL ls).length)] := by
  induction ls generalizing off with
  | nil => simp [withStarts, joinNL]
  | cons x xs ih =>
    simp only [List.cons_append, withStarts, List.append_eq]
    rw [ih, joinNL_cons]
    have harith : off + (x.length + 1) + (joinNL xs).length =
        off + ((x ++ [10]) ++ joinNL xs).length := by
      simp only [List.length_append, List.length_cons, List.length_nil]
      omega
    rw [harith]

theorem withStarts_length (ls : List Bytes) (off : Nat) :
    (withStarts ls off).length = ls.length := by
  induction ls generalizing off with
  | nil => rfl
  | cons x xs ih => simp [withStarts, ih]

/-- The backward loop over a file `joinNL ls ++ t` (all complete lines
`ls`, then a trailing segment `t` without a newline) processes `t` first
and then the lines of `ls` from the last to the first. -/
theorem findBoundaryLoop_app {α : Type} (parse : Bytes → Option α) (n : Nat) :
    ∀ (ls : List Bytes), (∀ l ∈ ls, 10 ∉ l) → ∀ {t : Bytes}, 10 ∉ t →
    ∀ (acc : List α),
    findBoundaryLoop parse n (joinNL ls ++ t) acc =
      scanRev parse n ((t, (joinNL ls).length) :: (withStarts ls 0).reverse)
        acc := by
  intro ls
  induction ls using List.reverseRecOn with
  | nil =>
    intro _ t ht acc
    show findBoundaryLoop parse n ([] ++ t) acc =
      scanRev parse n ((t, 0) :: []) acc
    rw [List.nil_append, findBoundaryLoop]
    split
    · rename_i idx hidx
      rw [rfindNL_of_not_mem ht] at hidx
      cases hidx
    · simp only [scanRev]
      rcases hr : processLine parse n t 0 acc with ⟨a, b⟩
      cases b <;> simp [scanRev, hr]
  | append_singleton ls l ih =>
    intro hmem t ht acc
    have hl : 10 ∉ l := hmem l (by simp)
    have hls : ∀ x ∈ ls, 10 ∉ x := fun x hx => hmem x (by simp [hx])
    have hbuf : joinNL (ls ++ [l]) ++ t = (joinNL ls ++ l) ++ 10 :: t := by
      rw [joinNL_append, joinNL_single]
      simp [List.append_assoc]
    have hlen : (joinNL (ls ++ [l])).length = (joinNL ls ++ l).length + 1 := by
      rw [joinNL_append, joinNL_single]
      simp only [List.length_append, List.length_cons, List.length_nil]
      omega
    have hws : (withStarts (ls ++ [l]) 0).reverse =
        (l, (joinNL ls).length) :: (withStarts ls 0).reverse := by
      rw [withStarts_append]
      simp
    rw [hbuf, hlen, hws, findBoundaryLoop]
    split
    · rename_i idx hidx
      rw [rfindNL_concat_line ht] at hidx
      cases hidx
      have hdrop :
          ((joinNL ls ++ l) ++ 10 :: t).drop ((joinNL ls ++ l).length + 1) =
            t := by
        rw [show (joinNL ls ++ l) ++ 10 :: t = ((joinNL ls ++ l) ++ [10]) ++ t
          by simp]
        exact List.drop_left'
          (by simp only [List.length_append, List.length_cons,
                List.length_nil])
      have htake :
          ((joinNL ls ++ l) ++ 10 :: t).take ((joinNL ls ++ l).length) =
            joinNL ls ++ l := List.take_left' rfl
      rw [hdrop, htake]
      simp only [scanRev]
      rcases hr : processLine parse n t ((joinNL ls ++ l).length + 1) acc
        with ⟨a, b⟩
      cases b with
      | none =>
        simp only [hr]
        exact ih hls hl a
      | some off => simp [hr]
    · rename_i hnone
      rw [rfindNL_concat_line ht] at hnone
      cases hnone

/-- The backward loop on a fully newline-terminated file processes the
lines from the last to the first. -/
theorem findBoundaryLoop_joinNL {α : Type} (parse : Bytes → Option α)
    (n : Nat) (ls : List Bytes) (hmem : ∀ l ∈ ls, 10 ∉ l) (acc : List α) :
    findBoundaryLoop parse n (joinNL ls) acc =
      scanRev parse n ((withStarts ls 0).reverse) acc := by
  have h := findBoundaryLoop_app parse n ls hmem (t := []) (by simp) acc
  rw [List.append_nil] at h
  rw [h]
  simp [scanRev, processLine]

/-- The reverse scan over arbitrary lines: when the running count plus the
user lines still ahead never reach `n`, every user prompt is collected
(skipped lines contribute nothing) and no boundary is reported. -/
theorem scanRev_no_hit {α : Type} (parse : Bytes → Option α) (n : Nat) :
    ∀ (pairs : List (Bytes × Nat)) (acc : List α),
    (n ≤ acc.length ∨
      acc.length +
        (pairs.filterMap (fun e => lineUserPrompt parse e.1)).length < n) →
    scanRev parse n pairs acc =
      (none, acc ++ pairs.filterMap (fun e => lineUserPrompt parse e.1)) := by
  intro pairs
  induction pairs with
  | nil =>
    intro acc _
    simp [scanRev]
  | cons e rest ih =>
    intro acc hcond
    cases hu : lineUserPrompt parse e.1 with
    | none =>
      simp only [scanRev, processLine_eq, hu]
      rw [ih acc (by
        rcases hcond with hc | hc
        · exact Or.inl hc
        · refine Or.inr ?_
          simpa [List.filterMap_cons, hu] using hc)]
      simp [List.filterMap_cons, hu]
    | some p =>
      have hne : ¬(acc.length + 1 = n) := by
        rcases hcond with hc | hc
        · omega
        · simp [List.filterMap_cons, hu] at hc
          omega
      simp only [scanRev, processLine_eq, hu, hne, if_false]
      rw [ih (acc ++ [p]) (by
        rcases hcond with hc | hc
        · exact Or.inl (by simp; omega)
        · refine Or.inr ?_
          simp [List.filterMap_cons, hu] at hc ⊢
          omega)]
      simp [List.filterMap_cons, hu]

/-- The reverse scan over arbitrary lines: when the entry `(l, off)` is a
user line and the user lines scanned before it (the block `a`, which may
contain skipped lines) bring the count exactly to `n`, the scan stops
there, reporting offset `off` and the prompts collected so far. -/
theorem scanRev_hit_at {α : Type} (parse : Bytes → Option α) (n : Nat) :
    ∀ (a : List (Bytes × Nat)) {l : Bytes} (off : Nat) {p : α}
      (b : List (Bytes × Nat)) (acc : List α),
    lineUserPrompt parse l = some p →
    acc.length + (a.filterMap (fun e => lineUserPrompt parse e.1)).length + 1
      = n →
    scanRev parse n (a ++ (l, off) :: b) acc =
      (some off,
        acc ++ a.filterMap (fun e => lineUserPrompt parse e.1) ++ [p]) := by
  intro a
  induction a with
  | nil =>
    intro l off p b acc hl hcount
    simp only [List.nil_append, scanRev, processLine_eq, hl]
    have hstop : acc.length + 1 = n := by simpa using hcount
    simp [hstop]
  | cons e a1 ih =>
    intro l off p b acc hl hcount
    cases hu : lineUserPrompt parse e.1 with
    | none =>
      simp only [List.cons_append, scanRev, processLine_eq, hu,
        List.append_eq]
      rw [ih off b acc hl (by
        simpa [List.filterMap_cons, hu] using hcount)]
      simp [List.filterMap_cons, hu]
    | some q =>
      have hne : ¬(acc.length + 1 = n) := by
        simp [List.filterMap_cons, hu] at hcount
        omega
      simp only [List.cons_append, scanRev, processLine_eq, hu, hne,
        if_false, List.append_eq]
      rw [ih off b (acc ++ [q]) hl (by
        simp [List.filterMap_cons, hu] at hcount ⊢
        omega)]
      simp [List.filterMap_cons, hu, List.append_assoc]

/-- `withStarts` distributes over concatenation, shifting the second
block's offsets by the byte length of the first block. -/
theorem withStarts_split (xs ys : List Bytes) (off : Nat) :
    withStarts (xs ++ ys) off =
      withStarts xs off ++ withStarts ys (off + (joinNL xs).length) := by
  induction xs generalizing off with
  | nil => simp [withStarts, joinNL]
  | cons x xs1 ih =>
    simp only [List.cons_append, withStarts, List.append_eq]
    rw [ih]
    have harith : off + (x.length + 1) + (joinNL xs1).length =
        off + (joinNL (x :: xs1)).length := by
      rw [joinNL_cons]
      simp only [List.length_append, List.length_cons, List.length_nil]
      omega
    rw [harith]

/-- The line classification ignores the attached start offsets. -/
theorem filterMap_withStarts {α : Type} (parse : Bytes → Option α) :
    ∀ (xs : List Bytes) (off : Nat),
    (withStarts xs off).filterMap (fun e => lineUserPrompt parse e.1) =
      xs.filterMap (lineUserPrompt parse) := by
  intro xs
  induction xs with
  | nil => intro off; rfl
  | cons x xs1 ih =>
    intro off
    simp only [withStarts, List.filterMap_cons]
    cases hu : lineUserPrompt parse x <;> simp [hu, ih]

/-- Classified prompts of the reversed, offset-annotated lines are the
reversed prompts of the lines. -/
theorem filterMap_withStarts_reverse {α : Type} (parse : Bytes → Option α)
    (xs : List Bytes) (off : Nat) :
    (withStarts xs off).reverse.filterMap
        (fun e => lineUserPrompt parse e.1) =
      (xs.filterMap (lineUserPrompt parse)).reverse := by
  rw [List.filterMap_reverse, filterMap_withStarts]

/-- Any transcript whose lines carry at least `k + 1` user lines splits at
its `(k+1)`-th user line (0-indexed `k`), with arbitrary skipped lines
around it. -/
theorem filterMap_split {α : Type} (f : Bytes → Option α) :
    ∀ (ls : List Bytes) (k : Nat), k < (ls.filterMap f).length →
    ∃ (pre suf : List Bytes) (l : Bytes) (p : α),
      ls = pre ++ l :: suf ∧ f l = some p ∧
      (pre.filterMap f).length = k ∧
      (suf.filterMap f).length = (ls.filterMap f).length - k - 1 := by
  intro ls
  induction ls with
  | nil =>
    intro k hk
    simp at hk
  | cons x xs ih =>
    intro k hk
    cases hu : f x with
    | none =>
      have hk1 : k < (xs.filterMap f).length := by
        simpa [List.filterMap_cons, hu] using hk
      obtain ⟨pre, suf, l, p, hdec, hl, hpre, hsuf⟩ := ih k hk1
      refine ⟨x :: pre, suf, l, p, by rw [hdec, List.cons_append], hl, ?_, ?_⟩
      · simpa [List.filterMap_cons, hu] using hpre
      · rw [hsuf]
        simp [List.filterMap_cons, hu]
    | some q =>
      cases k with
      | zero =>
        refine ⟨[], xs, x, q, rfl, hu, by simp, ?_⟩
        simp [List.filterMap_cons, hu]
      | succ k1 =>
        have hk1 : k1 < (xs.filterMap f).length := by
          simp [List.filterMap_cons, hu] at hk
          omega
        obtain ⟨pre, suf, l, p, hdec, hl, hpre, hsuf⟩ := ih k1 hk1
        refine ⟨x :: pre, suf, l, p, by rw [hdec, List.cons_append], hl,
          ?_, ?_⟩
        · simp [List.filterMap_cons, hu, hpre]
        · rw [hsuf]
          simp [List.filterMap_cons, hu]

/-- C1: over a newline-terminated transcript with an arbitrary mix of
user-message lines and skipped lines (non-user, malformed JSON, blank —
classified exactly as `process_line` does, via `lineUserPrompt`), let `u`
be the number of user lines.  First part: splitting the transcript at any
user line followed by exactly `n - 1` further user lines — that is, at the
`(u-n+1)`-th user line — `find_boundary_by_user_prompts` succeeds,
returning as boundary the byte offset of the first byte of that line and
as prompts exactly the last `n` user prompts in chronological order.
Second part: such a split exists for every `n ≤ u`, so the search
succeeds for all `1 ≤ n ≤ u`.  Third part: for `n > u` — including
non-empty transcripts with no user line at all — it fails with the
"Not enough user prompts" error. -/
theorem C1_find_boundary_by_user_prompts {α : Type} (parse : Bytes → Option α)
    (ls : List Bytes) (hNL : ∀ l ∈ ls, 10 ∉ l) (hne : ls ≠ []) (n : Nat)
    (hn : 1 ≤ n) :
    (∀ (pre suf : List Bytes) (l : Bytes) (p : α),
      ls = pre ++ l :: suf →
      lineUserPrompt parse l = some p →
      (suf.filterMap (lineUserPrompt parse)).length = n - 1 →
      find_boundary_by_user_prompts parse (joinNL ls) n =
        Except.ok ⟨(joinNL pre).length,
          (l :: suf).filterMap (lineUserPrompt parse)⟩ ∧
      ((l :: suf).filterMap (lineUserPrompt parse)).length = n)
    ∧ (n ≤ (ls.filterMap (lineUserPrompt parse)).length →
      ∃ (pre suf : List Bytes) (l : Bytes) (p : α),
        ls = pre ++ l :: suf ∧ lineUserPrompt parse l = some p ∧
        (suf.filterMap (lineUserPrompt parse)).length = n - 1)
    ∧ ((ls.filterMap (lineUserPrompt parse)).length < n →
      find_boundary_by_user_prompts parse (joinNL ls) n =
        Except.error (BoundaryError.notEnough n
          (ls.filterMap (lineUserPrompt parse)).length)) := by
  have hn0 : ¬(n = 0) := by omega
  have hfile : ¬((joinNL ls).length = 0) := by
    cases ls with
    | nil => exact absurd rfl hne
    | cons x xs =>
      rw [joinNL_cons]
      simp
  have hloop := findBoundaryLoop_joinNL parse n ls hNL []
  refine ⟨?_, ?_, ?_⟩
  · intro pre suf l p hdec hl hcount
    have hlenfm : ((l :: suf).filterMap (lineUserPrompt parse)).length =
        n := by
      simp only [List.filterMap_cons, hl, List.length_cons]
      omega
    refine ⟨?_, hlenfm⟩
    subst hdec
    have hsplit2 : withStarts (pre ++ l :: suf) 0 =
        withStarts pre 0 ++ (l, (joinNL pre).length) ::
          withStarts suf ((joinNL pre).length + (l.length + 1)) := by
      rw [withStarts_split]
      simp [withStarts]
    have hpairs : (withStarts (pre ++ l :: suf) 0).reverse =
        (withStarts suf ((joinNL pre).length + (l.length + 1))).reverse ++
          (l, (joinNL pre).length) :: (withStarts pre 0).reverse := by
      rw [hsplit2]
      simp [List.reverse_append, List.append_assoc]
    have hcnt2 :
        (([] : List α)).length +
          (((withStarts suf
              ((joinNL pre).length + (l.length + 1))).reverse.filterMap
            (fun e => lineUserPrompt parse e.1)).length) + 1 = n := by
      rw [filterMap_withStarts_reverse]
      simp only [List.length_nil, List.length_reverse, Nat.zero_add]
      omega
    have hscan := scanRev_hit_at parse n
      ((withStarts suf ((joinNL pre).length + (l.length + 1))).reverse)
      ((joinNL pre).length)
      ((withStarts pre 0).reverse) ([] : List α) hl hcnt2
    unfold find_boundary_by_user_prompts
    rw [if_neg hn0, if_neg hfile, hloop, hpairs, hscan]
    rw [filterMap_withStarts_reverse]
    simp [List.filterMap_cons, hl]
  · intro hle
    have hk : (ls.filterMap (lineUserPrompt parse)).length - n <
        (ls.filterMap (lineUserPrompt parse)).length := by omega
    obtain ⟨pre, suf, l, p, hdec, hl, hpre, hsuf⟩ :=
      filterMap_split (lineUserPrompt parse) ls
        ((ls.filterMap (lineUserPrompt parse)).length - n) hk
    refine ⟨pre, suf, l, p, hdec, hl, ?_⟩
    rw [hsuf]
    omega
  · intro hlt
    have hscan := scanRev_no_hit parse n ((withStarts ls 0).reverse)
      ([] : List α)
      (Or.inr (by
        rw [filterMap_withStarts_reverse]
        simpa using hlt))
    unfold find_boundary_by_user_prompts
    rw [if_neg hn0, if_neg hfile, hloop, hscan]
    rw [filterMap_withStarts_reverse]
    simp

/-- Witness for C1: a mixed four-line transcript — a non-user line "{}",
a user line "h1", a non-user line "a", a user line "h2" (so u = 2, with
two skipped lines exercising the skip path).  Rewinding by one prompt
succeeds with the boundary at byte 8 (the start of the last line) and
prompt list [2]; rewinding by three prompts fails with the
"Not enough user prompts (requested 3, found 2)" error. -/
theorem C1_find_boundary_by_user_prompts_witness :
    find_boundary_by_user_prompts
        (fun l => if l = [104, 49] then some 1
          else if l = [104, 50] then some 2 else none)
        (joinNL [[123, 125], [104, 49], [97], [104, 50]]) 1 =
      Except.ok ⟨8, [2]⟩ ∧
    find_boundary_by_user_prompts
        (fun l => if l = [104, 49] then some 1
          else if l = [104, 50] then some 2 else none)
        (joinNL [[123, 125], [104, 49], [97], [104, 50]]) 3 =
      Except.error (BoundaryError.notEnough 3 2) := by
  constructor
  · have h := ((C1_find_boundary_by_user_prompts
        (fun l => if l = [104, 49] then some 1
          else if l = [104, 50] then some 2 else none)
        [[123, 125], [104, 49], [97], [104, 50]]
        (by decide) (by decide) 1 (by decide)).1
      [[123, 125], [104, 49], [97]] [] [104, 50] 2
      (by decide) (by decide) (by decide)).1
    have e1 : (joinNL [[123, 125], [104, 49], [97]]).length = 8 := by decide
    have e2 : ([104, 50] :: ([] : List Bytes)).filterMap
        (lineUserPrompt (fun l => if l = [104, 49] then some 1
          else if l = [104, 50] then some 2 else none)) = [2] := by decide
    rw [e1, e2] at h
    exact h
  · have h := (C1_find_boundary_by_user_prompts
        (fun l => if l = [104, 49] then some 1
          else if l = [104, 50] then some 2 else none)
        [[123, 125], [104, 49], [97], [104, 50]]
        (by decide) (by decide) 3 (by decide)).2.2 (by decide)
    have e3 : (([[123, 125], [104, 49], [97], [104, 50]] :
        List Bytes).filterMap
        (lineUserPrompt (fun l => if l = [104, 49] then some 1
          else if l = [104, 50] then some 2 else none))).length = 2 := by
      decide
    rw [e3] at h
    exact h


theorem getLastD_of_append_ne_nil {t : Bytes} (ht : t ≠ []) (s : Bytes)
    (d : Nat) : (s ++ t).getLastD d = t.getLastD d := by
  rw [List.getLastD_eq_getLast?, List.getLastD_eq_getLast?,
    List.getLast?_append]
  cases hq : t.getLast? with
  | some a => simp
  | none =>
    cases t with
    | nil => exact absurd rfl ht
    | cons x xs => simp [List.getLast?] at hq

theorem getLastD_mem {t : Bytes} (ht : t ≠ []) (d : Nat) :
    t.getLastD d ∈ t := by
  induction t using List.reverseRecOn with
  | nil => exact absurd rfl ht
  | append_singleton t1 a ih =>
    rw [List.getLastD_concat]
    simp

/-- C2 counterexample: a non-empty transcript with no newline at all (the
bytes "abc").  Its final — incomplete — line is the whole file, of length
k = S = 3, yet `compute_cursor` reports `byte_offset_end = 3`, not
`S - k = 0` as the claim demands. -/
theorem C2_counterexample :
    ([97, 98, 99] : Bytes) ≠ [] ∧ (10 : Nat) ∉ ([97, 98, 99] : Bytes) ∧
    (compute_cursor (fun _ => ()) (fun _ => ())
        (fun _ _ => (none : Option Unit)) [97, 98, 99]).byte_offset_end = 3 ∧
    ¬((compute_cursor (fun _ => ()) (fun _ => ())
        (fun _ _ => (none : Option Unit))
        [97, 98, 99]).byte_offset_end = 0) := by
  decide

/-- C2 (amended): for a non-empty file not ending in a newline,
`compute_cursor` returns `byte_offset_end = S - k` (with `k` the length of
the final, incomplete line) whenever the file contains at least one
newline; for a non-empty file containing no newline at all it returns the
whole file size `S`, not 0 (the code explicitly treats the entire file as
a single line). -/
theorem C2_compute_cursor_last_line {H E : Type} (hashP hashT : Bytes → H)
    (readId : Bytes → Nat → Option E) :
    (∀ (pre t : Bytes), 10 ∉ t → t ≠ [] →
      (compute_cursor hashP hashT readId (pre ++ 10 :: t)).byte_offset_end =
        (pre ++ 10 :: t).length - t.length)
    ∧ (∀ (f : Bytes), f ≠ [] → 10 ∉ f →
      (compute_cursor hashP hashT readId f).byte_offset_end = f.length) := by
  constructor
  · intro pre t hnt ht
    have hne : ¬((pre ++ 10 :: t).length = 0) := by simp
    have hlast : (pre ++ 10 :: t).getLastD 0 ≠ 10 := by
      rw [show pre ++ 10 :: t = (pre ++ [10]) ++ t by simp,
        getLastD_of_append_ne_nil ht]
      intro heq
      exact hnt (heq ▸ getLastD_mem ht 0)
    unfold compute_cursor find_last_complete_line_end
    rw [if_neg hne]
    simp only [if_neg hne, if_neg hlast, rfindNL_concat_line hnt]
    simp only [List.length_append, List.length_cons]
    omega
  · intro f hf hnf
    have hne : ¬(f.length = 0) := by
      have := List.length_pos.mpr hf
      omega
    have hlast : f.getLastD 0 ≠ 10 := by
      intro hlast
      exact hnf (hlast ▸ getLastD_mem hf 0)
    unfold compute_cursor find_last_complete_line_end
    rw [if_neg hne]
    simp only [if_neg hne, if_neg hlast, rfindNL_of_not_mem hnf]

/-- Witness for C2 (amended): the file "a\nb" has final line "b" of length
1 and cursor offset 3 - 1 = 2; the newline-free file "a" gets cursor
offset 1 (its own length). -/
theorem C2_compute_cursor_last_line_witness :
    (compute_cursor (fun _ => ()) (fun _ => ())
        (fun _ _ => (none : Option Unit))
        ([97] ++ 10 :: [98])).byte_offset_end =
      ([97] ++ 10 :: [98]).length - [98].length ∧
    (compute_cursor (fun _ => ()) (fun _ => ())
        (fun _ _ => (none : Option Unit)) [97]).byte_offset_end =
      [97].length := by
  constructor
  · exact (C2_compute_cursor_last_line (fun _ => ()) (fun _ => ())
      (fun _ _ => (none : Option Unit))).1 [97] [98] (by decide) (by decide)
  · exact (C2_compute_cursor_last_line (fun _ => ()) (fun _ => ())
      (fun _ _ => (none : Option Unit))).2 [97] (by decide) (by decide)

/-- C3 counterexample: in an empty store, a create that collects zero files
returns the "No files to checkpoint" failure, yet the checkpoint directory
it created (here named "cp") is present on disk afterwards — the claim
that it is removed is false. -/
theorem C3_counterexample :
    (store_create [] ['c', 'p'] []).1.success = false ∧
    (store_create [] ['c', 'p'] []).1.error =
      some "No files to checkpoint" ∧
    ['c', 'p'] ∈ (store_create [] ['c', 'p'] []).2 := by
  refine ⟨rfl, rfl, ?_⟩
  simp [store_create, insertDir]

/-- C3 (amended): when zero files are collected, `create` fails with
"No files to checkpoint", but the checkpoint directory it just created is
left on disk — the recursive-delete rollback runs only when an exception
is raised, which this early return is not. -/
theorem C3_store_create_no_files (dirs : List PathStr) (name : PathStr) :
    (store_create dirs name []).1 =
      { success := false, error := some "No files to checkpoint" } ∧
    name ∈ (store_create dirs name []).2 := by
  constructor
  · rfl
  · show name ∈ insertDir dirs name
    unfold insertDir
    by_cases h : name ∈ dirs
    · simp [h]
    · simp [h]

/-- C5: with no agent supplied (so title prefixing is disabled, as for the
default profile lookup on `None`), the fork file holds exactly the first
`min(off, size)` bytes of the transcript followed by one appended newline
exactly when that prefix is non-empty and does not already end in a
newline. -/
theorem C5_create_fork_at_offset (profileEnables : String → Bool)
    (rewriteTitle : Bytes → Bytes) (rtp : Option String)
    (transcript : Bytes) (boundary_offset : Nat) :
    create_fork_at_offset profileEnables rewriteTitle none rtp transcript
        boundary_offset =
      transcript.take (min boundary_offset transcript.length) ++
        (if transcript.take (min boundary_offset transcript.length) ≠ [] ∧
            (transcript.take
              (min boundary_offset transcript.length)).getLastD 0 ≠ 10
          then [10] else []) := by
  have htake : transcript.take boundary_offset =
      transcript.take (min boundary_offset transcript.length) := by
    rw [List.take_eq_take]
    omega
  unfold create_fork_at_offset title_prefix_enabled
  simp only [Bool.and_false, Bool.false_eq_true, if_false]
  show ensure_trailing_newline (transcript.take boundary_offset) = _
  rw [htake]
  generalize transcript.take (min boundary_offset transcript.length) = P
  unfold ensure_trailing_newline
  by_cases h0 : P.length = 0
  · have hP : P = [] := List.length_eq_zero.mp h0
    simp [h0, hP]
  · have hP : ¬(P = []) := fun h => h0 (by simp [h])
    by_cases h10 : P.getLastD 0 = 10
    · rw [List.getLastD_eq_getLast?] at h10
      simp [h0, h10]
    · rw [List.getLastD_eq_getLast?] at h10
      simp [h0, h10, hP]

theorem find_of_overwrite_ne (q : PathStr) (c : Bytes) {p : PathStr}
    (hpq : p ≠ q) : ∀ (ws : FileSys),
    Option.map (fun e => e.2)
      (List.find? (fun e => e.1 == p)
        (ws.map (fun e => if e.1 == q then (q, c) else e))) =
    Option.map (fun e => e.2) (List.find? (fun e => e.1 == p) ws) := by
  intro ws
  induction ws with
  | nil => rfl
  | cons e rest ih =>
    simp only [List.map_cons, List.find?_cons]
    by_cases he : e.1 == q
    · have heq : e.1 = q := by simpa using he
      have h1 : ((if e.1 == q then (q, c) else e).1 == p) = false := by
        simp [he, Ne.symm hpq]
      have h2 : (e.1 == p) = false := by
        simp [heq, Ne.symm hpq]
      rw [h1, h2]
      exact ih
    · have h1 : (if e.1 == q then (q, c) else e) = e := by simp [he]
      rw [h1]
      by_cases hp : e.1 == p
      · simp [hp]
      · simp only [hp]
        exact ih

/-- Writing one file leaves every other path untouched. -/
theorem fsGet_fsSet_ne (ws : FileSys) (q : PathStr) (c : Bytes) {p : PathStr}
    (hpq : p ≠ q) : fsGet (fsSet ws q c) p = fsGet ws p := by
  unfold fsSet
  by_cases hany : ws.any (fun e => e.1 == q)
  · rw [if_pos hany]
    exact find_of_overwrite_ne q c hpq ws
  · rw [if_neg hany]
    unfold fsGet
    rw [List.find?_append]
    have hlast : List.find? (fun e => e.1 == p) [(q, c)] = none := by
      simp [Ne.symm hpq]
    rw [hlast]
    cases List.find? (fun e => e.1 == p) ws <;> simp

/-- C7: the restore copy loop never deletes or alters a workspace file
whose relative path is not an entry of the restored archive; only archived
paths are (over)written. -/
theorem C7_store_restore_copy (ws : FileSys)
    (entries : List (PathStr × Bytes)) :
    (∀ p, p ∉ entries.map Prod.fst →
      fsGet (store_restore_copy ws entries) p = fsGet ws p)
    ∧ (∀ p, fsGet (store_restore_copy ws entries) p ≠ fsGet ws p →
      p ∈ entries.map Prod.fst) := by
  have hmain : ∀ (es : List (PathStr × Bytes)) (w : FileSys) (p : PathStr),
      p ∉ es.map Prod.fst →
      fsGet (store_restore_copy w es) p = fsGet w p := by
    intro es
    induction es with
    | nil => intro w p _; rfl
    | cons e rest ih =>
      intro w p hp
      have hne : p ≠ e.1 := by
        intro h
        exact hp (by simp [h])
      have hrest : p ∉ rest.map Prod.fst := by
        intro h
        exact hp (by simp [h])
      show fsGet (store_restore_copy (fsSet w e.1 e.2) rest) p = fsGet w p
      rw [ih _ p hrest, fsGet_fsSet_ne _ _ _ hne]
  refine ⟨fun p hp => hmain entries ws p hp, fun p hne => ?_⟩
  by_contra hmem
  exact hne (hmain entries ws p hmem)

/-- Witness for C7: restoring an archive containing only "b" leaves the
workspace file "a" (content [1]) unchanged. -/
theorem C7_store_restore_copy_witness :
    fsGet (store_restore_copy [(['a'], [1])] [(['b'], [2])]) ['a'] =
      fsGet [(['a'], [1])] ['a'] :=
  (C7_store_restore_copy [(['a'], [1])] [(['b'], [2])]).1 ['a'] (by decide)

/-- C4 counterexample: two checkpoints for the same transcript path, the
newer (name "b") with cursor 5, the older (name "a") with cursor 7, and
boundary 10.  The code returns the newer checkpoint with cursor 5 even
though the older one also matches and its cursor 7 is the largest value at
or below the boundary — so the selection is not "largest cursor ≤ b". -/
theorem C4_counterexample :
    select_checkpoint_for_boundary id
        [⟨['b'], some ⟨some ['t'], none, some ⟨5⟩⟩⟩,
         ⟨['a'], some ⟨some ['t'], none, some ⟨7⟩⟩⟩] ['t'] 10 =
      some ⟨['b'], some ⟨some ['t'], none, some ⟨5⟩⟩⟩ ∧
    cpMatches id ['t'] 10 ⟨['a'], some ⟨some ['t'], none, some ⟨7⟩⟩⟩ = true ∧
    cursorEnd ⟨['a'], some ⟨some ['t'], none, some ⟨7⟩⟩⟩ = 7 ∧
    cursorEnd ⟨['b'], some ⟨some ['t'], none, some ⟨5⟩⟩⟩ = 5 ∧
    ((5 : Int) < 7 ∧ (7 : Int) ≤ 10) := by
  decide

/-- C4 (amended): `_select_checkpoint_for_boundary` returns the first
matching checkpoint of the list it is given (the list is passed newest
first, so the newest match), and `none` exactly when no checkpoint
matches.  When matching checkpoints appear with nonincreasing cursors —
the normal situation, cursors growing with recency in a newest-first
list — the returned checkpoint also carries the largest cursor at or
below the boundary. -/
theorem C4_select_checkpoint_for_boundary (norm : PathStr → PathStr)
    (cps : List SelCheckpoint) (tp : PathStr) (b : Int) :
    (select_checkpoint_for_boundary norm cps tp b =
      cps.find? (cpMatches norm (norm tp) b))
    ∧ (select_checkpoint_for_boundary norm cps tp b = none ↔
      ∀ cp ∈ cps, ¬(cpMatches norm (norm tp) b cp = true))
    ∧ (∀ cp, select_checkpoint_for_boundary norm cps tp b = some cp →
      cpMatches norm (norm tp) b cp = true ∧
      (cps.Pairwise (fun x y => cpMatches norm (norm tp) b x = true →
          cpMatches norm (norm tp) b y = true → cursorEnd y ≤ cursorEnd x) →
        ∀ cp2 ∈ cps, cpMatches norm (norm tp) b cp2 = true →
          cursorEnd cp2 ≤ cursorEnd cp)) := by
  have aux : ∀ (P : SelCheckpoint → Bool) (l : List SelCheckpoint)
      (cp : SelCheckpoint), l.find? P = some cp →
      l.Pairwise (fun x y => P x = true → P y = true →
        cursorEnd y ≤ cursorEnd x) →
      ∀ cp2 ∈ l, P cp2 = true → cursorEnd cp2 ≤ cursorEnd cp := by
    intro P l
    induction l with
    | nil =>
      intro cp h
      cases h
    | cons x rest ih =>
      intro cp hsel hpw cp2 hcp2 hm2
      rw [List.find?_cons] at hsel
      rcases List.pairwise_cons.mp hpw with ⟨hx, hrest⟩
      cases hpx : P x with
      | true =>
        rw [hpx] at hsel
        simp only [Option.some.injEq] at hsel
        subst hsel
        rcases List.mem_cons.mp hcp2 with h | h
        · subst h
          exact le_refl _
        · exact hx cp2 h hpx hm2
      | false =>
        rw [hpx] at hsel
        simp only [] at hsel
        rcases List.mem_cons.mp hcp2 with h | h
        · subst h
          exact absurd hm2 (by simp [hpx])
        · exact ih cp hsel hrest cp2 h hm2
  refine ⟨rfl, List.find?_eq_none, ?_⟩
  intro cp hsel
  exact ⟨List.find?_some hsel,
    fun hpw => aux (cpMatches norm (norm tp) b) cps cp hsel hpw⟩

/-- Witness for C4 (amended): checkpoints with cursors 30 > 20 > 10 newest
first and boundary 25; the selected checkpoint (cursor 20) matches and
carries the largest cursor at or below the boundary. -/
theorem C4_select_checkpoint_for_boundary_witness :
    cpMatches id ['t'] 25 ⟨['b'], some ⟨some ['t'], none, some ⟨20⟩⟩⟩ = true ∧
    ∀ cp2 ∈ [(⟨['c'], some ⟨some ['t'], none, some ⟨30⟩⟩⟩ : SelCheckpoint),
        ⟨['b'], some ⟨some ['t'], none, some ⟨20⟩⟩⟩,
        ⟨['a'], some ⟨some ['t'], none, some ⟨10⟩⟩⟩],
      cpMatches id ['t'] 25 cp2 = true →
      cursorEnd cp2 ≤ cursorEnd ⟨['b'], some ⟨some ['t'], none, some ⟨20⟩⟩⟩ := by
  have h := (C4_select_checkpoint_for_boundary id
      [⟨['c'], some ⟨some ['t'], none, some ⟨30⟩⟩⟩,
       ⟨['b'], some ⟨some ['t'], none, some ⟨20⟩⟩⟩,
       ⟨['a'], some ⟨some ['t'], none, some ⟨10⟩⟩⟩] ['t'] 25).2.2
    ⟨['b'], some ⟨some ['t'], none, some ⟨20⟩⟩⟩ (by decide)
  exact ⟨h.1, h.2 (by decide)⟩

/-- C6: in a `restore(name, mode="all")` on an existing checkpoint whose
transcript metadata is intact, (a) if the code restore succeeds and the
fork creation then raises, the result still reports `success = true`
together with `contextError` and `contextRestored = false`, and the
workspace keeps exactly the state the code restore produced (nothing is
undone); (b) if the code restore fails, the whole operation fails with the
code error. -/
theorem C6_controller_restore {WS : Type} (name : PathStr)
    (code_result : CheckpointResult) (codeApply : WS → WS) (ws : WS)
    (tmeta : RestoreTranscriptMeta) (cur : SelCursor)
    (session_tp : Option PathStr) (cp : PathStr) (e : String) :
    (code_result.success = true →
      tmeta.cursor = some cur →
      pyOr session_tp (pyOr tmeta.original_path tmeta.path) = some cp →
      cp ≠ [] →
      (controller_restore true name code_result codeApply
          (restore_transcript (some (some tmeta)) session_tp
            (Except.error e))
          RestoreMode.all ws).1.success = true ∧
      (controller_restore true name code_result codeApply
          (restore_transcript (some (some tmeta)) session_tp
            (Except.error e))
          RestoreMode.all ws).1.contextError = some e ∧
      (controller_restore true name code_result codeApply
          (restore_transcript (some (some tmeta)) session_tp
            (Except.error e))
          RestoreMode.all ws).1.contextRestored = some false ∧
      (controller_restore true name code_result codeApply
          (restore_transcript (some (some tmeta)) session_tp
            (Except.error e))
          RestoreMode.all ws).2 = codeApply ws)
    ∧ (∀ (ctx : ContextResult), code_result.success = false →
      (controller_restore true name code_result codeApply ctx
          RestoreMode.all ws).1.success = false ∧
      (controller_restore true name code_result codeApply ctx
          RestoreMode.all ws).1.error = code_result.error ∧
      (controller_restore true name code_result codeApply ctx
          RestoreMode.all ws).1.contextRestored = none) := by
  constructor
  · intro hcode hcur hpath hcp
    have hctx : restore_transcript (some (some tmeta)) session_tp
        (Except.error e) =
        { contextRestored := false, contextError := some e } := by
      simp [restore_transcript, hcur, hpath, hcp]
    rw [hctx]
    unfold controller_restore
    simp [hcode, mergeContext]
  · intro ctx hcode
    unfold controller_restore
    simp [hcode]

/-- Witness for C6: a concrete restore in which the code restore succeeds
(the workspace counter is bumped by `codeApply`) and the fork creation
fails with "boom"; and the same restore with a failed code result. -/
theorem C6_controller_restore_witness :
    ((controller_restore true ['n'] { success := true, file_count := 2 }
        (fun (w : Nat) => w + 1)
        (restore_transcript
          (some (some ⟨some ⟨0⟩, some ['t'], none⟩)) none
          (Except.error "boom"))
        RestoreMode.all 0).1.success = true ∧
      (controller_restore true ['n'] { success := true, file_count := 2 }
        (fun (w : Nat) => w + 1)
        (restore_transcript
          (some (some ⟨some ⟨0⟩, some ['t'], none⟩)) none
          (Except.error "boom"))
        RestoreMode.all 0).1.contextError = some "boom" ∧
      (controller_restore true ['n'] { success := true, file_count := 2 }
        (fun (w : Nat) => w + 1)
        (restore_transcript
          (some (some ⟨some ⟨0⟩, some ['t'], none⟩)) none
          (Except.error "boom"))
        RestoreMode.all 0).1.contextRestored = some false ∧
      (controller_restore true ['n'] { success := true, file_count := 2 }
        (fun (w : Nat) => w + 1)
        (restore_transcript
          (some (some ⟨some ⟨0⟩, some ['t'], none⟩)) none
          (Except.error "boom"))
        RestoreMode.all 0).2 = (fun (w : Nat) => w + 1) 0) ∧
    ((controller_restore true ['n']
        { success := false, error := some "tar error" }
        (fun (w : Nat) => w + 1) { contextRestored := false }
        RestoreMode.all 0).1.success = false ∧
      (controller_restore true ['n']
        { success := false, error := some "tar error" }
        (fun (w : Nat) => w + 1) { contextRestored := false }
        RestoreMode.all 0).1.error = some "tar error" ∧
      (controller_restore true ['n']
        { success := false, error := some "tar error" }
        (fun (w : Nat) => w + 1) { contextRestored := false }
        RestoreMode.all 0).1.contextRestored = none) := by
  constructor
  · exact (C6_controller_restore ['n'] { success := true, file_count := 2 }
      (fun (w : Nat) => w + 1) 0 ⟨some ⟨0⟩, some ['t'], none⟩ ⟨0⟩ none ['t']
      "boom").1 rfl rfl rfl (by decide)
  · exact (C6_controller_restore ['n']
      { success := false, error := some "tar error" }
      (fun (w : Nat) => w + 1) 0 ⟨some ⟨0⟩, some ['t'], none⟩ ⟨0⟩ none ['t']
      "boom").2 { contextRestored := false } rfl

/-- C9: whenever some force-include pattern glob-matches the path,
`should_ignore` returns false, whatever the ignore patterns say. -/
theorem C9_should_ignore_force_include (cfg : IgnoreConfig)
    (path : List Char)
    (h : ∃ pat ∈ cfg.force_include, fnmatch path pat = true) :
    should_ignore cfg path = false := by
  have hany : cfg.force_include.any (fun pat => fnmatch path pat) = true :=
    List.any_eq_true.mpr (by
      obtain ⟨pat, hmem, hm⟩ := h
      exact ⟨pat, hmem, hm⟩)
  unfold should_ignore
  rw [if_pos hany]

/-- Witness for C9: with `force_include = [".env.example"]`, the path
".env.example" is not ignored even though "*.env" is among the ignore
patterns. -/
theorem C9_should_ignore_force_include_witness :
    should_ignore
      ⟨["*.env".data, ".git".data], [], [".env.example".data]⟩
      ".env.example".data = false :=
  C9_should_ignore_force_include
    ⟨["*.env".data, ".git".data], [], [".env.example".data]⟩
    ".env.example".data ⟨".env.example".data, by decide, by decide⟩

/-- C10: `undo` with fewer than two checkpoints fails with "Not enough
checkpoints to undo" and changes nothing; when the restore to the
second-newest checkpoint fails, `undo` fails and the checkpoint set is
unchanged; only when that restore succeeds is the newest checkpoint
deleted. -/
theorem C10_controller_undo (names : List PathStr)
    (restoreResult : PathStr → Bool × Option String) :
    (names.length < 2 →
      controller_undo names restoreResult =
        ({ success := false,
           error := some "Not enough checkpoints to undo" }, names))
    ∧ (2 ≤ names.length →
      (restoreResult ((store_list names).getD 1 [])).1 = false →
      (controller_undo names restoreResult).1.success = false ∧
      (controller_undo names restoreResult).2 = names)
    ∧ (2 ≤ names.length →
      (restoreResult ((store_list names).getD 1 [])).1 = true →
      (controller_undo names restoreResult).1.success = true ∧
      (controller_undo names restoreResult).1.deletedCheckpoint =
        some ((store_list names).getD 0 []) ∧
      (controller_undo names restoreResult).2 =
        (store_delete names ((store_list names).getD 0 [])).2) := by
  have hlen : (store_list names).length = names.length :=
    (List.perm_insertionSort _ names).length_eq
  refine ⟨?_, ?_, ?_⟩
  · intro hlt
    unfold controller_undo
    rw [if_pos (by omega)]
  · intro hge hfail
    unfold controller_undo
    rw [if_neg (by omega)]
    simp only [List.getD, List.get?_eq_getElem?] at hfail
    simp [hfail]
  · intro hge hok
    unfold controller_undo
    rw [if_neg (by omega)]
    simp only [List.getD, List.get?_eq_getElem?] at hok
    simp [hok]

/-- Witness for C10: with checkpoints "a" and "b" (so "b" is newest) and a
restore that always succeeds, `undo` succeeds, deletes "b", and leaves
only "a"; with a single checkpoint it fails and changes nothing. -/
theorem C10_controller_undo_witness :
    ((controller_undo [['a'], ['b']] (fun _ => (true, none))).1.success =
        true ∧
      (controller_undo [['a'], ['b']]
          (fun _ => (true, none))).1.deletedCheckpoint = some ['b'] ∧
      (controller_undo [['a'], ['b']] (fun _ => (true, none))).2 =
        (store_delete [['a'], ['b']] ['b']).2) ∧
    controller_undo [['a']] (fun _ => (true, none)) =
      ({ success := false,
         error := some "Not enough checkpoints to undo" }, [['a']]) := by
  constructor
  · have h := (C10_controller_undo [['a'], ['b']]
        (fun _ => (true, none))).2.2 (by decide) (by decide)
    refine ⟨h.1, ?_, h.2.2⟩
    rw [h.2.1]
    have : (store_list [['a'], ['b']]).getD 0 [] = ['b'] := by decide
    rw [this]
  · exact (C10_controller_undo [['a']] (fun _ => (true, none))).1
      (by decide)

/-- Erasing the same element on both sides preserves permutation. -/
theorem perm_erase (d : PathStr) : ∀ {l1 l2 : List PathStr},
    l1.Perm l2 → (l1.erase d).Perm (l2.erase d) := by
  intro l1 l2 h
  induction h with
  | nil => simp
  | cons x hp ih =>
    cases hx : (x == d) with
    | true =>
      simp only [List.erase_cons, hx, if_true]
      assumption
    | false =>
      simp only [List.erase_cons, hx, Bool.false_eq_true, if_false]
      exact ih.cons x
  | swap x y l =>
    cases hx : (x == d) with
    | true =>
      cases hy : (y == d) with
      | true =>
        have hx1 : x = d := by simpa using hx
        have hy1 : y = d := by simpa using hy
        subst hx1
        subst hy1
        exact List.Perm.refl _
      | false =>
        simp only [List.erase_cons, hx, hy, Bool.false_eq_true, if_false,
          if_true]
        exact List.Perm.refl _
    | false =>
      cases hy : (y == d) with
      | true =>
        simp only [List.erase_cons, hx, hy, Bool.false_eq_true, if_false,
          if_true]
        exact List.Perm.refl _
      | false =>
        simp only [List.erase_cons, hx, hy, Bool.false_eq_true, if_false]
        exact List.Perm.swap x y (l.erase d)
  | trans h1 h2 ih1 ih2 => exact ih1.trans ih2

/-- The deletion loop of `prune`: deleting a batch of names that (with the
kept rest) splits the store deletes each of them exactly once and leaves
exactly the rest. -/
theorem prune_del_loop : ∀ (toDel rest names : List PathStr) (c : Nat),
    names.Nodup → names.Perm (rest ++ toDel) →
    ((toDel.foldl
        (fun acc nm =>
          let r := store_delete acc.2 nm
          (if r.1 then acc.1 + 1 else acc.1, r.2)) (c, names)).1 =
      c + toDel.length) ∧
    ((toDel.foldl
        (fun acc nm =>
          let r := store_delete acc.2 nm
          (if r.1 then acc.1 + 1 else acc.1, r.2)) (c, names)).2).Perm
      rest := by
  intro toDel
  induction toDel with
  | nil =>
    intro rest names c hnd hperm
    refine ⟨by simp, ?_⟩
    simpa using hperm
  | cons d ds ih =>
    intro rest names c hnd hperm
    have hd : d ∈ names := hperm.mem_iff.mpr (by simp)
    have hall : (rest ++ d :: ds).Nodup := hperm.nodup hnd
    have hdr : d ∉ rest := by
      intro hmem
      exact (List.nodup_append.mp hall).2.2 hmem (by simp)
    have hstep : store_delete names d = (true, names.erase d) := by
      unfold store_delete
      rw [if_pos hd]
    have hperm1 : (names.erase d).Perm (rest ++ ds) := by
      have h1 := perm_erase d hperm
      rwa [List.erase_append_right _ hdr, List.erase_cons_head] at h1
    have hnd1 : (names.erase d).Nodup := hnd.erase d
    rw [List.foldl_cons]
    have happ : (let r := store_delete (c, names).2 d
        (if r.1 then (c, names).1 + 1 else (c, names).1, r.2)) =
        ((c + 1 : Nat), names.erase d) := by
      simp [hstep]
    rw [happ]
    have hrec := ih rest (names.erase d) (c + 1) hnd1 hperm1
    refine ⟨?_, hrec.2⟩
    rw [hrec.1]
    simp [List.length_cons]
    omega

/-- C8: after `m` successful creates of pairwise-distinct names,
`prune(keep)` with `keep < m` deletes exactly `m - keep` checkpoints, and
a subsequent `list()` returns exactly the `keep` newest names in
name-descending order. -/
theorem C8_store_prune (names : List PathStr) (keep : Nat)
    (hnd : names.Nodup) (hk : keep < names.length) :
    (store_prune names keep).1 = names.length - keep ∧
    store_list (store_prune names keep).2 =
      (store_list names).take keep := by
  have hperm : (store_list names).Perm names :=
    List.perm_insertionSort _ names
  have hlen : (store_list names).length = names.length := hperm.length_eq
  have hsorted : List.Sorted (· ≥ ·) (store_list names) :=
    List.sorted_insertionSort _ names
  have hsplit : names.Perm
      ((store_list names).take keep ++ (store_list names).drop keep) := by
    rw [List.take_append_drop]
    exact hperm.symm
  have hloop := prune_del_loop ((store_list names).drop keep)
    ((store_list names).take keep) names 0 hnd hsplit
  have hcond : ¬((store_list names).length ≤ keep) := by omega
  have hbody : store_prune names keep =
      ((store_list names).drop keep).foldl
        (fun acc nm =>
          let r := store_delete acc.2 nm
          (if r.1 then acc.1 + 1 else acc.1, r.2)) (0, names) := by
    unfold store_prune
    rw [if_neg hcond]
  rw [hbody]
  constructor
  · rw [hloop.1]
    simp [List.length_drop, hlen]
  · refine List.eq_of_perm_of_sorted
      ((List.perm_insertionSort _ _).trans hloop.2)
      (List.sorted_insertionSort _ _) ?_
    exact List.Pairwise.sublist (List.take_sublist _ _) hsorted

/-- Witness for C8: three distinct checkpoint names pruned with
`keep = 1`: two deletions, and the store then lists exactly the newest
name. -/
theorem C8_store_prune_witness :
    (store_prune [['b'], ['a'], ['c']] 1).1 = 2 ∧
    store_list (store_prune [['b'], ['a'], ['c']] 1).2 =
      (store_list [['b'], ['a'], ['c']]).take 1 := by
  have h := C8_store_prune [['b'], ['a'], ['c']] 1 (by decide) (by decide)
  exact ⟨h.1, h.2⟩

end Rewind
